import Mathlib

/-!
Shallow embedding of the go-cache repository (src/cache/cache.go).

The repository implements an in-process key/value store with per-entry
time-based expiration.  `cache.go` carries two versions of the same package:
the current one (lines 1-161) whose `Get` and `deleteExpired` emit debug log
lines through a `slog.Logger`, and an earlier one (lines 162-291) without
logging; the two are otherwise identical.  We embed the store state as a
structure over an association list (Go's `map[string]Item` with unique keys,
modelled extensionally), the `clockwork.Clock` as an explicit `now : Int`
parameter passed to every operation that calls `clock.Now()` (timestamps are
Go `int64` nanosecond Unix times, embedded as `Int`), and the logger as a
writer-style `List String` output on the logging variants.  `Stop`'s only
action is a conditional send on the `stopCleanup` channel; we record whether
that send happens as a `Bool` output.
-/

set_option autoImplicit false

namespace GoCache

/-- `type Item struct` (cache.go lines 97-100): one cached value together
with its absolute expiration instant in Unix nanoseconds; `Expiration = 0`
is the "never expires" sentinel. -/
structure Item (V : Type) where
  Value : V
  Expiration : Int
deriving Repr, DecidableEq

/-- The state of `type Cache struct` (cache.go lines 12-20): the key→item
map plus the two configured durations.  The mutex, clock, logger and stop
channel are modelled outside the state (explicit `now` arguments, log
outputs, and `Stop`'s boolean send indicator). -/
structure Cache (V : Type) where
  items : List (String × Item V)
  defaultExpiration : Int
  cleanupInterval : Int
deriving Repr, DecidableEq

/-- Go map read `item, found := c.items[key]`: the binding of `key`, if any
(keys in a Go map are unique, so the first binding is the binding). -/
def mapRead {V : Type} : List (String × Item V) → String → Option (Item V)
  | [], _ => none
  | kv :: rest, key => if kv.1 = key then some kv.2 else mapRead rest key

/-- Go builtin `delete(c.items, key)`: remove every binding of `key`. -/
def mapErase {V : Type} (items : List (String × Item V)) (key : String) :
    List (String × Item V) :=
  items.filter (fun kv => kv.1 != key)

/-- Go map assignment `c.items[key] = item`: bind `key` to `item`,
replacing any previous binding. -/
def mapAssign {V : Type} (items : List (String × Item V)) (key : String)
    (item : Item V) : List (String × Item V) :=
  (key, item) :: mapErase items key

/-- `NewCache` (cache.go lines 23-38): fresh empty store with the given
default expiration and cleanup interval.  (The background goroutine started
when `cleanupInterval > 0` only ever calls `deleteExpired`, modelled
separately.) -/
def NewCache (V : Type) (defaultExpiration cleanupInterval : Int) : Cache V :=
  { items := [], defaultExpiration := defaultExpiration,
    cleanupInterval := cleanupInterval }

/-- `SetWithExpiration` (cache.go lines 53-65 and 213-225, identical):
`exp` stays the `int64` zero value unless `0 < expiration`, in which case it
becomes `clock.Now().Add(expiration).UnixNano() = now + expiration`; the new
item replaces any existing binding of `key`. -/
def Cache.SetWithExpiration {V : Type} (c : Cache V) (key : String) (value : V)
    (expiration : Int) (now : Int) : Cache V :=
  let exp : Int := if 0 < expiration then now + expiration else 0
  { c with items := mapAssign c.items key { Value := value, Expiration := exp } }

/-- `Set` (cache.go lines 47-49 and 207-209): insert with the default
expiration. -/
def Cache.Set {V : Type} (c : Cache V) (key : String) (value : V) (now : Int) :
    Cache V :=
  c.SetWithExpiration key value c.defaultExpiration now

/-- `SetWithoutExpiration` (cache.go lines 68-70 and 228-230): insert with
`expiration = 0`. -/
def Cache.SetWithoutExpiration {V : Type} (c : Cache V) (key : String)
    (value : V) (now : Int) : Cache V :=
  c.SetWithExpiration key value 0 now

/-- `Delete` (cache.go lines 73-77 and 233-237): `delete(c.items, key)`. -/
def Cache.Delete {V : Type} (c : Cache V) (key : String) : Cache V :=
  { c with items := mapErase c.items key }

/-- `Get`, non-logging variant (cache.go lines 240-254).  The method has a
pointer receiver, so we return the (unchanged) state alongside the
`(value, found)` pair: every `return` in the source leaves `c.items`
untouched.  An entry is rejected exactly when
`0 < item.Expiration && item.Expiration < c.clock.Now().UnixNano()`. -/
def Cache.Get {V : Type} (c : Cache V) (key : String) (now : Int) :
    Cache V × Option V × Bool :=
  match mapRead c.items key with
  | none => (c, none, false)
  | some item =>
    if 0 < item.Expiration ∧ item.Expiration < now then
      (c, none, false)
    else
      (c, some item.Value, true)

/-- `deleteExpired`, non-logging variant (cache.go lines 273-283): capture
`now := c.clock.Now().UnixNano()` once (the single `now` argument), then
delete every entry with `0 < v.Expiration && v.Expiration < now` while
ranging over the map. -/
def Cache.deleteExpired {V : Type} (c : Cache V) (now : Int) : Cache V :=
  { c with
    items := c.items.filter
      (fun kv => !(decide (0 < kv.2.Expiration) && decide (kv.2.Expiration < now))) }

/-- `Stop` (cache.go lines 157-161 and 286-290): `if 0 < c.cleanupInterval`
send on the `stopCleanup` channel.  The boolean records whether the send —
the only potentially blocking step, and the method's only action — was
performed. -/
def Cache.Stop {V : Type} (c : Cache V) : Cache V × Bool :=
  if 0 < c.cleanupInterval then (c, true) else (c, false)

/-- `Get`, logging variant (cache.go lines 80-95): identical to
`Cache.Get` except that the expired branch first runs
`c.logger.Debug("Item with key `", key, "` found but expired. Not returning.")`.
The emitted debug line is returned writer-style. -/
def Cache.GetL {V : Type} (c : Cache V) (key : String) (now : Int) :
    (Cache V × Option V × Bool) × List String :=
  match mapRead c.items key with
  | none => ((c, none, false), [])
  | some item =>
    if 0 < item.Expiration ∧ item.Expiration < now then
      ((c, none, false),
        ["Item with key `" ++ key ++ "` found but expired. Not returning."])
    else
      ((c, some item.Value, true), [])

/-- `deleteExpired`, logging variant (cache.go lines 142-154): logs
`"Cleaning up expired items."`, captures `now` once, then sweeps exactly as
the non-logging variant does. -/
def Cache.deleteExpiredL {V : Type} (c : Cache V) (now : Int) :
    Cache V × List String :=
  ({ c with
      items := c.items.filter
        (fun kv => !(decide (0 < kv.2.Expiration) && decide (kv.2.Expiration < now))) },
    ["Cleaning up expired items."])

/-- `SetWithExpiration` of the logging file (cache.go lines 53-65): its body
is byte-for-byte that of the non-logging variant and emits no log line. -/
def Cache.SetWithExpirationL {V : Type} (c : Cache V) (key : String) (value : V)
    (expiration : Int) (now : Int) : Cache V × List String :=
  let exp : Int := if 0 < expiration then now + expiration else 0
  ({ c with items := mapAssign c.items key { Value := value, Expiration := exp } }, [])

/-- `Delete` of the logging file (cache.go lines 73-77): body identical to
the non-logging variant, no log line. -/
def Cache.DeleteL {V : Type} (c : Cache V) (key : String) :
    Cache V × List String :=
  ({ c with items := mapErase c.items key }, [])

/-! ### Association-list lemmas for the Go map operations -/

theorem mapRead_mapErase_self {V : Type} (l : List (String × Item V)) (key : String) :
    mapRead (mapErase l key) key = none := by
  induction l with
  | nil => rfl
  | cons kv t ih =>
    by_cases h : kv.1 = key
    · simpa [mapErase, List.filter_cons, h] using ih
    · simpa [mapErase, List.filter_cons, bne_iff_ne, h, mapRead] using ih

theorem mapRead_mapErase_ne {V : Type} (l : List (String × Item V))
    {key key' : String} (h : key' ≠ key) :
    mapRead (mapErase l key) key' = mapRead l key' := by
  induction l with
  | nil => rfl
  | cons kv t ih =>
    rw [mapErase, List.filter_cons]
    by_cases hk : kv.1 = key
    · have h1 : (kv.1 != key) = false := by simp [hk]
      rw [h1]
      simp only [Bool.false_eq_true, if_false]
      have h2 : ¬kv.1 = key' := by rw [hk]; exact fun e => h e.symm
      rw [show mapRead (kv :: t) key' = mapRead t key' from by rw [mapRead, if_neg h2]]
      exact ih
    · have h1 : (kv.1 != key) = true := by simpa [bne_iff_ne] using hk
      rw [h1]
      simp only [if_true]
      rw [mapRead, mapRead]
      by_cases h2 : kv.1 = key'
      · rw [if_pos h2, if_pos h2]
      · rw [if_neg h2, if_neg h2]
        exact ih

theorem mapRead_mapAssign_self {V : Type} (l : List (String × Item V))
    (key : String) (i : Item V) :
    mapRead (mapAssign l key i) key = some i := by
  simp [mapAssign, mapRead]

theorem mapRead_mapAssign_ne {V : Type} (l : List (String × Item V))
    {key key' : String} (i : Item V) (h : key' ≠ key) :
    mapRead (mapAssign l key i) key' = mapRead l key' := by
  have h2 : ¬key = key' := fun e => h e.symm
  rw [mapAssign, mapRead, if_neg h2]
  exact mapRead_mapErase_ne l h

theorem mapRead_filter_some {V : Type} (p : String × Item V → Bool)
    (l : List (String × Item V)) {key : String} {i : Item V}
    (h : mapRead (l.filter p) key = some i) : p (key, i) = true := by
  induction l with
  | nil => simp [mapRead] at h
  | cons kv t ih =>
    rcases hp : p kv with _ | _
    · rw [List.filter_cons, hp] at h
      simp only [Bool.false_eq_true, if_false] at h
      exact ih h
    · rw [List.filter_cons, hp] at h
      simp only [if_true] at h
      by_cases hk : kv.1 = key
      · rw [mapRead, if_pos hk] at h
        obtain rfl : kv.2 = i := by injection h
        rw [← hk]
        exact hp
      · rw [mapRead, if_neg hk] at h
        exact ih h

theorem mapRead_filter_of_pos {V : Type} {p : String × Item V → Bool}
    {l : List (String × Item V)} {key : String} {i : Item V}
    (h : mapRead l key = some i) (hp : p (key, i) = true) :
    mapRead (l.filter p) key = some i := by
  induction l with
  | nil => simp [mapRead] at h
  | cons kv t ih =>
    by_cases hk : kv.1 = key
    · rw [mapRead, if_pos hk] at h
      obtain rfl : kv.2 = i := by injection h
      have hkv : p kv = true := by rw [show kv = (key, kv.2) from by rw [← hk]] at hp ⊢; exact hp
      rw [List.filter_cons, hkv]
      simp only [if_true]
      rw [mapRead, if_pos hk]
    · rw [mapRead, if_neg hk] at h
      rw [List.filter_cons]
      rcases hq : p kv with _ | _
      · simp only [Bool.false_eq_true, if_false]
        exact ih h
      · simp only [if_true]
        rw [mapRead, if_neg hk]
        exact ih h

theorem mapErase_mapErase {V : Type} (l : List (String × Item V)) (key : String) :
    mapErase (mapErase l key) key = mapErase l key := by
  induction l with
  | nil => rfl
  | cons kv t ih =>
    by_cases h : kv.1 = key
    · have h1 : (kv.1 != key) = false := by simp [h]
      have e1 : mapErase (kv :: t) key = mapErase t key := by
        rw [mapErase, List.filter_cons, h1]
        simp only [Bool.false_eq_true, if_false]
        rfl
      rw [e1]
      exact ih
    · have h1 : (kv.1 != key) = true := by simpa [bne_iff_ne] using h
      have e1 : mapErase (kv :: t) key = kv :: mapErase t key := by
        rw [mapErase, List.filter_cons, h1]
        simp only [if_true]
        rfl
      rw [e1]
      have e2 : mapErase (kv :: mapErase t key) key = kv :: mapErase (mapErase t key) key := by
        rw [mapErase, List.filter_cons, h1]
        simp only [if_true]
        rfl
      rw [e2, ih]

theorem mapErase_of_mapRead_none {V : Type} {l : List (String × Item V)}
    {key : String} (h : mapRead l key = none) : mapErase l key = l := by
  induction l with
  | nil => rfl
  | cons kv t ih =>
    by_cases hk : kv.1 = key
    · rw [mapRead, if_pos hk] at h
      exact absurd h (by simp)
    · rw [mapRead, if_neg hk] at h
      simp [mapErase, List.filter_cons, bne_iff_ne, hk] at ih ⊢
      exact ih h

/-! ### The claims -/

/-- C3: `SetWithExpiration(k, v, ttl)` with `ttl ≤ 0` stores the sentinel
expiration `0`; `SetWithoutExpiration(k, v)` is exactly
`SetWithExpiration(k, v, 0)`; and after either call `Get(k)` returns
`(v, true)` at every clock reading, however large the elapsed time. -/
theorem ttl_nonpos_never_expires {V : Type} (c : Cache V) (key : String)
    (value : V) (ttl now : Int) (h : ttl ≤ 0) :
    mapRead (c.SetWithExpiration key value ttl now).items key =
      some { Value := value, Expiration := 0 } ∧
    c.SetWithoutExpiration key value now = c.SetWithExpiration key value 0 now ∧
    ∀ t : Int, (c.SetWithExpiration key value ttl now).Get key t =
      (c.SetWithExpiration key value ttl now, some value, true) := by
  have hno : ¬(0 : Int) < ttl := not_lt.mpr h
  have hread : mapRead (c.SetWithExpiration key value ttl now).items key =
      some { Value := value, Expiration := 0 } := by
    show mapRead (mapAssign c.items key
      { Value := value, Expiration := if 0 < ttl then now + ttl else 0 }) key = _
    rw [if_neg hno]
    exact mapRead_mapAssign_self c.items key _
  refine ⟨hread, rfl, fun t => ?_⟩
  rw [Cache.Get, hread]
  simp

/-- Witness for C3: a `ttl = -1` insertion at clock reading `10` stores the
sentinel and is still found a second later. -/
theorem ttl_nonpos_never_expires_witness :
    mapRead ((NewCache Nat 0 0).SetWithExpiration "a" 5 (-1) 10).items "a" =
      some { Value := 5, Expiration := 0 } ∧
    ((NewCache Nat 0 0).SetWithExpiration "a" 5 (-1) 10).Get "a" 1000000000 =
      ((NewCache Nat 0 0).SetWithExpiration "a" 5 (-1) 10, some 5, true) :=
  ⟨(ttl_nonpos_never_expires (NewCache Nat 0 0) "a" 5 (-1) 10 (by decide)).1,
   (ttl_nonpos_never_expires (NewCache Nat 0 0) "a" 5 (-1) 10 (by decide)).2.2 1000000000⟩

/-- C4: a `Set*` call on an existing key fully replaces the old entry — the
binding afterwards is the new value with expiration computed from the current
clock reading, whatever was stored before — and in the spec's concrete
scenario (default TTL 1s, `Set` at t=0, overwrite at t=900ms), `Get` at
t=1800ms still returns the second value even though the original TTL window
has passed. -/
theorem set_overwrites_and_resets_expiration {V : Type} (c : Cache V)
    (key : String) (value : V) (ttl now : Int) :
    mapRead (c.SetWithExpiration key value ttl now).items key =
      some { Value := value, Expiration := if 0 < ttl then now + ttl else 0 } ∧
    ((((NewCache Nat 1000000000 2000000000).Set "k" 1 0).Set "k" 2 900000000).Get
        "k" 1800000000).2 = (some 2, true) := by
  constructor
  · exact mapRead_mapAssign_self c.items key _
  · decide

/-- C7: after `Delete(k)`, `Get(k)` returns `(_, false)` whatever the prior
state; deleting twice leaves the same state as deleting once; and deleting an
absent key changes nothing. -/
theorem Delete_unconditional_idempotent {V : Type} (c : Cache V) (key : String)
    (now : Int) :
    (c.Delete key).Get key now = (c.Delete key, none, false) ∧
    (c.Delete key).Delete key = c.Delete key ∧
    (mapRead c.items key = none → c.Delete key = c) := by
  refine ⟨?_, ?_, ?_⟩
  · rw [Cache.Get,
      show mapRead (c.Delete key).items key = none from mapRead_mapErase_self c.items key]
  · simp only [Cache.Delete]
    rw [mapErase_mapErase]
  · intro h
    simp only [Cache.Delete]
    rw [mapErase_of_mapRead_none h]

/-- Witness for C7: deleting the lone key makes `Get` miss, and deleting a
key absent from a fresh store returns the store unchanged. -/
theorem Delete_unconditional_idempotent_witness :
    ((((NewCache Nat 3 4).SetWithoutExpiration "a" 1 0).Delete "a").Get "a" 99 =
      ((((NewCache Nat 3 4).SetWithoutExpiration "a" 1 0).Delete "a"), none, false)) ∧
    (NewCache Nat 3 4).Delete "b" = NewCache Nat 3 4 :=
  ⟨(Delete_unconditional_idempotent
      ((NewCache Nat 3 4).SetWithoutExpiration "a" 1 0) "a" 99).1,
   (Delete_unconditional_idempotent (NewCache Nat 3 4) "b" 0).2.2 (by decide)⟩

/-- C8: on a store whose cleanup interval is `0`, `Stop` takes the no-send
branch: it performs no send on the stop channel (the only potentially
blocking step) and leaves the store state unchanged. -/
theorem Stop_noop_without_cleanup {V : Type} (c : Cache V)
    (h : c.cleanupInterval = 0) : c.Stop = (c, false) := by
  have hno : ¬(0 : Int) < c.cleanupInterval := by rw [h]; exact lt_irrefl 0
  rw [Cache.Stop, if_neg hno]

/-- Witness for C8: a store built with cleanup interval `0`. -/
theorem Stop_noop_without_cleanup_witness :
    (NewCache Nat 5 0).Stop = (NewCache Nat 5 0, false) :=
  Stop_noop_without_cleanup (NewCache Nat 5 0) rfl

/-- C9: logging never affects behaviour — for every state and argument, the
logging variants of `Get`, `SetWithExpiration`, `Delete` and `deleteExpired`
return exactly the results and key→item maps of the non-logging variants;
the emitted log lines are the only difference. -/
theorem logging_preserves_behavior {V : Type} (c : Cache V) (key : String)
    (value : V) (ttl now : Int) :
    (c.GetL key now).1 = c.Get key now ∧
    (c.SetWithExpirationL key value ttl now).1 = c.SetWithExpiration key value ttl now ∧
    (c.DeleteL key).1 = c.Delete key ∧
    (c.deleteExpiredL now).1 = c.deleteExpired now := by
  refine ⟨?_, rfl, rfl, rfl⟩
  rcases hr : mapRead c.items key with _ | item
  · simp only [Cache.GetL, Cache.Get, hr]
  · simp only [Cache.GetL, Cache.Get, hr]
    by_cases h : 0 < item.Expiration ∧ item.Expiration < now
    · rw [if_pos h, if_pos h]
    · rw [if_neg h, if_neg h]

/-- C10: the sweep removes only expired entries — any binding whose
expiration is the `0` sentinel, or is at least the captured timestamp,
survives `deleteExpired` with its key, value and expiration unchanged. -/
theorem deleteExpired_preserves_unexpired {V : Type} (c : Cache V) (now : Int)
    (key : String) (i : Item V) (hread : mapRead c.items key = some i)
    (hlive : i.Expiration = 0 ∨ now ≤ i.Expiration) :
    mapRead (c.deleteExpired now).items key = some i := by
  show mapRead (c.items.filter fun kv =>
    !(decide (0 < kv.2.Expiration) && decide (kv.2.Expiration < now))) key = some i
  apply mapRead_filter_of_pos hread
  show (!(decide (0 < i.Expiration) && decide (i.Expiration < now))) = true
  rcases hlive with h | h
  · have h1 : (decide ((0 : Int) < i.Expiration)) = false := by
      rw [h]; exact decide_eq_false (lt_irrefl 0)
    rw [h1, Bool.false_and]
    rfl
  · have h2 : (decide (i.Expiration < now)) = false :=
      decide_eq_false (not_lt.mpr h)
    rw [h2, Bool.and_false]
    rfl

/-- Witness for C10: a never-expiring entry survives a sweep untouched. -/
theorem deleteExpired_preserves_unexpired_witness :
    mapRead (((NewCache Nat 0 0).SetWithoutExpiration "a" 1 0).deleteExpired 50).items "a" =
      some { Value := 1, Expiration := 0 } :=
  deleteExpired_preserves_unexpired ((NewCache Nat 0 0).SetWithoutExpiration "a" 1 0) 50 "a"
    { Value := 1, Expiration := 0 } (by decide) (Or.inl rfl)

/-- C5 (amended: the lazily-expired gloss must read "positive `expiresAt` in
the past", since the code tests `0 < Expiration`, not `Expiration ≠ 0`):
`Get` leaves the key→item map unchanged, and on an entry whose expiration is
positive and before `now` it returns `(_, false)` while the entry stays
physically present in the map. -/
theorem Get_never_mutates {V : Type} (c : Cache V) (key : String) (now : Int) :
    (c.Get key now).1 = c ∧
    ∀ i : Item V, mapRead c.items key = some i → 0 < i.Expiration →
      i.Expiration < now →
      (c.Get key now).2 = ((none : Option V), false) ∧
      mapRead ((c.Get key now).1).items key = some i := by
  have hframe : (c.Get key now).1 = c := by
    rw [Cache.Get]
    split
    · rfl
    · split <;> rfl
  refine ⟨hframe, fun i hi h1 h2 => ⟨?_, ?_⟩⟩
  · simp only [Cache.Get, hi]
    rw [if_pos ⟨h1, h2⟩]
  · rw [hframe]
    exact hi

/-- Counterexample to C5 as stated: the entry stored at clock `-100` with
`ttl = 5` has `Expiration = -95`, which is non-zero and in the past at clock
`-90` — a "lazily-expired entry" in the claim's words — yet `Get` returns it
with `found = true` rather than `(_, false)`. -/
theorem Get_expired_nonzero_not_treated_absent :
    mapRead ((NewCache Nat 0 0).SetWithExpiration "x" 3 5 (-100)).items "x" =
      some { Value := 3, Expiration := -95 } ∧
    (((NewCache Nat 0 0).SetWithExpiration "x" 3 5 (-100)).Get "x" (-90)).2 =
      (some 3, true) ∧
    ((-95 : Int) ≠ 0 ∧ (-95 : Int) < -90) := by decide

/-- Witness for C5: an entry with positive past expiration is reported
absent by `Get` while remaining present in the map. -/
theorem Get_never_mutates_witness :
    ((((NewCache Nat 0 0).SetWithExpiration "e" 4 5 0).Get "e" 10).2 =
      ((none : Option Nat), false)) ∧
    mapRead (((((NewCache Nat 0 0).SetWithExpiration "e" 4 5 0).Get "e" 10).1)).items "e" =
      some { Value := 4, Expiration := 5 } :=
  (Get_never_mutates ((NewCache Nat 0 0).SetWithExpiration "e" 4 5 0) "e" 10).2
    { Value := 4, Expiration := 5 } (by decide) (by decide) (by decide)

/-- C1 (amended: the expiry test is strict, so `Get` still returns the value
at elapsed time exactly `ttl`; the "found" window is `elapsed ≤ ttl` and the
"not found" region is `elapsed > ttl`; the clock reading at the `Set` call
must be nonnegative so that the computed expiration `now + ttl` does not
fall on or below the `0` "never expires" sentinel): after
`SetWithExpiration(k, v, ttl)` with `ttl > 0` at clock `now ≥ 0`, `Get(k)` at
clock `now + e` returns `(v, true)` whenever `e ≤ ttl` and `(_, false)`
whenever `e > ttl`. -/
theorem SetWithExpiration_Get_window {V : Type} (c : Cache V) (key : String)
    (value : V) (ttl now e : Int) (httl : 0 < ttl) (hnow : 0 ≤ now) :
    (e ≤ ttl → ((c.SetWithExpiration key value ttl now).Get key (now + e)).2 =
      (some value, true)) ∧
    (ttl < e → ((c.SetWithExpiration key value ttl now).Get key (now + e)).2 =
      ((none : Option V), false)) := by
  have hread : mapRead (c.SetWithExpiration key value ttl now).items key =
      some { Value := value, Expiration := now + ttl } := by
    show mapRead (mapAssign c.items key
      { Value := value, Expiration := if 0 < ttl then now + ttl else 0 }) key = _
    rw [if_pos httl]
    exact mapRead_mapAssign_self c.items key _
  constructor
  · intro he
    have hcond : ¬(0 < now + ttl ∧ now + ttl < now + e) := by
      intro hc
      omega
    simp only [Cache.Get, hread]
    rw [if_neg hcond]
  · intro he
    have hcond : 0 < now + ttl ∧ now + ttl < now + e := ⟨by omega, by omega⟩
    simp only [Cache.Get, hread]
    rw [if_pos hcond]

/-- Counterexample to C1 as stated: `ttl = 5` set at clock `0`; at elapsed
time exactly `5`, which is `≥ ttl`, the claim demands `(_, false)`, but the
expiry comparison `Expiration < now` is strict and `Get` still returns
`(7, true)`. -/
theorem Get_at_exactly_ttl_still_found :
    (((NewCache Nat 0 0).SetWithExpiration "k" 7 5 0).Get "k" (0 + 5)).2 =
      (some 7, true) := by decide

/-- Witness for C1: `ttl = 5` set at clock `0`; found at elapsed `3`, gone
at elapsed `6`. -/
theorem SetWithExpiration_Get_window_witness :
    ((((NewCache Nat 0 0).SetWithExpiration "w" 1 5 0).Get "w" (0 + 3)).2 =
      (some 1, true)) ∧
    ((((NewCache Nat 0 0).SetWithExpiration "w" 1 5 0).Get "w" (0 + 6)).2 =
      ((none : Option Nat), false)) :=
  ⟨(SetWithExpiration_Get_window (NewCache Nat 0 0) "w" 1 5 0 3
      (by decide) (by decide)).1 (by decide),
   (SetWithExpiration_Get_window (NewCache Nat 0 0) "w" 1 5 0 6
      (by decide) (by decide)).2 (by decide)⟩

/-- C2 (amended: the expired-entry condition reads "positive `expiresAt`
strictly less than current time", since the code tests `0 < Expiration`,
not `Expiration ≠ 0`): `Get(k)` returns `(absent, false)` iff `k` is missing
or the stored entry's expiration is positive and strictly before the current
clock reading; otherwise it returns the stored value with `true`. -/
theorem Get_found_characterization {V : Type} (c : Cache V) (key : String)
    (now : Int) :
    ((c.Get key now).2 = ((none : Option V), false) ↔
      mapRead c.items key = none ∨
      ∃ i : Item V, mapRead c.items key = some i ∧
        0 < i.Expiration ∧ i.Expiration < now) ∧
    ∀ i : Item V, mapRead c.items key = some i →
      ¬(0 < i.Expiration ∧ i.Expiration < now) →
      (c.Get key now).2 = (some i.Value, true) := by
  constructor
  · rcases hr : mapRead c.items key with _ | item
    · simp [Cache.Get, hr]
    · simp only [Cache.Get, hr]
      by_cases h : 0 < item.Expiration ∧ item.Expiration < now
      · rw [if_pos h]
        exact iff_of_true rfl (Or.inr ⟨item, rfl, h⟩)
      · rw [if_neg h]
        refine iff_of_false ?_ ?_
        · intro hh
          exact Option.some_ne_none item.Value (congrArg Prod.fst hh)
        · rintro (hnone | ⟨i, hi, hcond⟩)
          · exact Option.noConfusion hnone
          · injection hi with e
            subst e
            exact h hcond
  · intro i hi hcond
    simp only [Cache.Get, hi]
    rw [if_neg hcond]

/-- Counterexample to C2 as stated: the entry stored at clock `-100` with
`ttl = 5` has `Expiration = -95`, non-zero and strictly less than the
current clock `-90`, so the claim demands `(absent, false)`; the code only
rejects positive expirations and returns `(7, true)`. -/
theorem Get_nonzero_expired_still_found :
    mapRead ((NewCache Nat 0 0).SetWithExpiration "q" 7 5 (-100)).items "q" =
      some { Value := 7, Expiration := -95 } ∧
    (((NewCache Nat 0 0).SetWithExpiration "q" 7 5 (-100)).Get "q" (-90)).2 =
      (some 7, true) ∧
    ((-95 : Int) ≠ 0 ∧ (-95 : Int) < -90) := by decide

/-- Witness for C2: on a live entry (`Expiration = 105`, clock `103`) the
characterization yields `(v, true)`. -/
theorem Get_found_characterization_witness :
    (((NewCache Nat 0 0).SetWithExpiration "a" 7 5 100).Get "a" 103).2 =
      (some 7, true) :=
  (Get_found_characterization ((NewCache Nat 0 0).SetWithExpiration "a" 7 5 100)
    "a" 103).2 { Value := 7, Expiration := 105 } (by decide) (by decide)

/-- C6 (amended: "positive `expiresAt`" in place of "non-zero", matching the
code's `0 < v.Expiration` guard): the sweep captures `now` once (the single
timestamp argument of `deleteExpired`, mirroring the one
`now := c.clock.Now().UnixNano()` read in the source) and afterwards no
entry whose expiration is positive and less than that captured timestamp
remains anywhere in the map. -/
theorem deleteExpired_sweeps_all_expired {V : Type} (c : Cache V) (now : Int)
    (kv : String × Item V) (hmem : kv ∈ (c.deleteExpired now).items) :
    ¬(0 < kv.2.Expiration ∧ kv.2.Expiration < now) := by
  have hmem' : kv ∈ c.items.filter
      (fun kv => !(decide (0 < kv.2.Expiration) && decide (kv.2.Expiration < now))) := hmem
  have hp := List.of_mem_filter hmem'
  intro hc
  have hp' : (!(decide (0 < kv.2.Expiration) && decide (kv.2.Expiration < now))) = true := hp
  rw [decide_eq_true hc.1, decide_eq_true hc.2] at hp'
  exact absurd hp' (by decide)

/-- Counterexample to C6 as stated: the entry stored at clock `-100` with
`ttl = 5` has `Expiration = -95`, non-zero and less than the captured sweep
timestamp `-90`, so the claim demands its deletion; the sweep's
`0 < v.Expiration` guard keeps it. -/
theorem deleteExpired_nonzero_survives :
    mapRead (((NewCache Nat 0 0).SetWithExpiration "y" 9 5 (-100)).deleteExpired
        (-90)).items "y" = some { Value := 9, Expiration := -95 } ∧
    ((-95 : Int) ≠ 0 ∧ (-95 : Int) < -90) := by decide

/-- Witness for C6: the surviving entry of a concrete sweep is not expired
with respect to the captured timestamp. -/
theorem deleteExpired_sweeps_all_expired_witness :
    ¬((0 : Int) < 20 ∧ (20 : Int) < 10) :=
  deleteExpired_sweeps_all_expired ((NewCache Nat 0 0).SetWithExpiration "a" 1 20 0)
    10 ("a", { Value := 1, Expiration := 20 }) (by decide)

end GoCache
